import Mathlib

/-!
Verification development for `src/main.py` of raspi-play-sound-by-ultrsasound.

The program reads an HC-SR04 ultrasonic sensor, smooths the readings with a
Butterworth low-pass filter (with mean fallbacks), and runs a presence
state machine that starts or stops audio playback.  Machine floats are
modelled as rationals (all constants that the program compares against —
2.0, 400.0, 100.0, 0.5, 34300 — are exactly representable); the external
`scipy.signal.filtfilt` call is modelled as an explicit behaviour parameter,
since its output and failure mode are decided outside the repository.
-/

namespace RaspiPlay

/-! ## HCSR04.distance_cm (src/main.py lines 82-102)

`_send_pulse_and_wait` returns either a pulse duration in seconds or `None`
on timeout of either echo edge; `distance_cm` maps `None` to 400.0 and a
duration `d` to `(d * 34300) / 2` clamped by the two-sided `if` chain. -/

def distance_cm (pulse_duration : Option ℚ) : ℚ :=
  match pulse_duration with
  | none => 400
  | some d =>
    let distance : ℚ := d * 34300 / 2
    if distance < 2 then 2
    else if distance > 400 then 400
    else distance

/-! ## low_pass_filter (src/main.py lines 122-138)

The function first takes the short-window branch (`len < 15` → singleton
mean).  Otherwise it calls `scipy.signal.filtfilt`; a `ValueError` from
`filtfilt` is caught and answered with the singleton mean, while any other
exception escapes `low_pass_filter`.  The behaviour of the external
`filtfilt` call on a given window is a parameter `ff`; `Except.error ()`
models an exception propagating out of `low_pass_filter`. -/

inductive FiltfiltResult where
  | ok (out : List ℚ)
  | valueError
  | otherError
deriving DecidableEq

/-- Arithmetic mean, `np.mean`.  (On an empty array `np.mean` yields NaN;
every theorem below that touches `mean` carries a non-emptiness hypothesis
or proves the window non-empty.) -/
def mean (data : List ℚ) : ℚ := data.sum / data.length

/-- The `len >= 15` path of `low_pass_filter`: the `filtfilt` call guarded
by `try ... except ValueError` (lines 131-138). -/
def filtfiltPath (ff : List ℚ → FiltfiltResult) (data : List ℚ) :
    Except Unit (List ℚ) :=
  match ff data with
  | .ok out => Except.ok out
  | .valueError => Except.ok [mean data]
  | .otherError => Except.error ()

def low_pass_filter (ff : List ℚ → FiltfiltResult) (data : List ℚ) :
    Except Unit (List ℚ) :=
  if data.length < 15 then Except.ok [mean data]
  else filtfiltPath ff data

/-! ## The main loop's filtered value (src/main.py lines 185-190)

`filtered_distance = low_pass_filter(history)[-1]` is wrapped in
`try ... except Exception`, which logs a warning and substitutes the raw
reading when anything escapes the filter call — including the `[-1]`
indexing itself, which would raise `IndexError` on an empty array.
The result pairs the value used with whether the warning was logged. -/

def computeFiltered (ff : List ℚ → FiltfiltResult) (history : List ℚ)
    (raw : ℚ) : ℚ × Bool :=
  match low_pass_filter ff history with
  | .ok out =>
    match out.getLast? with
    | some v => (v, false)
    | none => (raw, true)
  | .error _ => (raw, true)

/-! ## The history deque (src/main.py lines 175, 183)

`deque([200.0] * 30, maxlen=30)`: appending to a full deque evicts the
oldest (leftmost) element. -/

def dequeAppend (maxlen : ℕ) (h : List ℚ) (x : ℚ) : List ℚ :=
  if h.length < maxlen then h ++ [x]
  else (h ++ [x]).drop (h.length + 1 - maxlen)

/-- History after `n` appends of the raw readings `raws 0, raws 1, ...`;
the window the main loop filters on tick `n` is `historyAt raws (n + 1)`. -/
def historyAt (raws : ℕ → ℚ) : ℕ → List ℚ
  | 0 => List.replicate 30 200
  | n + 1 => dequeAppend 30 (historyAt raws n) (raws n)

/-! ## C1: distance_cm range, timeout value, clamped formula -/

/-- C1.  Every measurement outcome yields a value in [2, 400]; a timeout of
either echo edge yields exactly 400.0; a valid pulse duration `d` yields
`(d * 34300) / 2` clamped into [2, 400] inclusive. -/
theorem distance_cm_spec :
    (∀ p : Option ℚ, 2 ≤ distance_cm p ∧ distance_cm p ≤ 400) ∧
    distance_cm none = 400 ∧
    (∀ d : ℚ, distance_cm (some d) = max 2 (min 400 (d * 34300 / 2))) := by
  refine ⟨?_, rfl, ?_⟩
  · intro p
    match p with
    | none => exact ⟨by norm_num [distance_cm], by norm_num [distance_cm]⟩
    | some d =>
      simp only [distance_cm]
      split_ifs with h1 h2 <;> constructor <;> linarith
  · intro d
    simp only [distance_cm]
    split_ifs with h1 h2
    · rw [min_eq_right (by linarith), max_eq_left (by linarith)]
    · rw [min_eq_left (le_of_lt h2), max_eq_right (by norm_num)]
    · rw [min_eq_right (le_of_not_lt h2), max_eq_right (le_of_not_lt h1)]

/-! ## The presence state machine (src/main.py lines 176-210)

Per tick the loop holds `person_detected`, `detection_start` and
`need_rearm`, reads the current time `t` and the filtered distance, and
executes:

* `filtered < 100` and not detected: record `detection_start = t`, set
  `person_detected`;
* `filtered < 100`, detected, `t - detection_start > 0.5`, not
  `need_rearm`: call `play_random_song()` and set `need_rearm`;
* otherwise below threshold: nothing;
* `filtered >= 100`: clear `person_detected`, call `stop_music()`, clear
  `need_rearm`.

A tick makes at most one playback call, abstracted as an `Event`.
`detection_start` starts as `None` and is only compared after it has been
set (see `detection_start_set_of_detected`). -/

inductive Event where
  | play
  | stop
  | noEvent
deriving DecidableEq

structure DState where
  person_detected : Bool
  detection_start : Option ℚ
  need_rearm : Bool
deriving DecidableEq

def initState : DState := ⟨false, none, false⟩

/-- The comparison `time.time() - detection_start > 0.5` of line 201.  The
`none` arm would be a Python `TypeError`; it is unreachable because the
comparison is guarded by `person_detected` (lemma
`detection_start_set_of_detected`). -/
def elapsedOver (ds : Option ℚ) (t : ℚ) : Bool :=
  match ds with
  | some d0 => decide (t - d0 > 1/2)
  | none => false

def detectStep (s : DState) (t filtered : ℚ) : DState × Event :=
  if filtered < 100 then
    if s.person_detected = false then
      (⟨true, some t, s.need_rearm⟩, Event.noEvent)
    else if elapsedOver s.detection_start t = true then
      if s.need_rearm = false then
        (⟨s.person_detected, s.detection_start, true⟩, Event.play)
      else (s, Event.noEvent)
    else (s, Event.noEvent)
  else
    (⟨false, s.detection_start, false⟩, Event.stop)

/-- Detector state before processing tick `n`, for tick times `t` and
filtered distances `d`. -/
def stateAt (t d : ℕ → ℚ) : ℕ → DState
  | 0 => initState
  | n + 1 => (detectStep (stateAt t d n) (t n) (d n)).1

/-- Playback event emitted on tick `n`. -/
def eventAt (t d : ℕ → ℚ) (n : ℕ) : Event :=
  (detectStep (stateAt t d n) (t n) (d n)).2

/-! ### Characterisation lemmas for one step -/

lemma detectStep_play_iff (s : DState) (t f : ℚ) :
    (detectStep s t f).2 = Event.play ↔
      f < 100 ∧ s.person_detected = true ∧
      elapsedOver s.detection_start t = true ∧ s.need_rearm = false := by
  unfold detectStep
  split_ifs with h1 h2 h3 h4 <;> simp_all

lemma detectStep_stop_iff (s : DState) (t f : ℚ) :
    (detectStep s t f).2 = Event.stop ↔ ¬ f < 100 := by
  unfold detectStep
  split_ifs <;> simp_all

lemma detectStep_detected_of_below (s : DState) (t f : ℚ) (h : f < 100) :
    ((detectStep s t f).1).person_detected = true := by
  unfold detectStep
  split_ifs with h1 h2 h3 h4 <;> simp_all

lemma detectStep_above (s : DState) (t f : ℚ) (h : ¬ f < 100) :
    (detectStep s t f).1 = ⟨false, s.detection_start, false⟩ := by
  unfold detectStep
  split_ifs <;> simp_all

lemma detectStep_start_fresh (s : DState) (t f : ℚ) (h : f < 100)
    (hpd : s.person_detected = false) :
    (detectStep s t f).1 = ⟨true, some t, s.need_rearm⟩ := by
  unfold detectStep
  split_ifs <;> simp_all

lemma detectStep_rearm_persists (s : DState) (t f : ℚ) (h : f < 100)
    (hr : s.need_rearm = true) :
    ((detectStep s t f).1).need_rearm = true := by
  unfold detectStep
  split_ifs with h1 h2 h3 h4 <;> simp_all

lemma detectStep_play_sets_rearm (s : DState) (t f : ℚ)
    (h : (detectStep s t f).2 = Event.play) :
    ((detectStep s t f).1).need_rearm = true := by
  unfold detectStep at *
  split_ifs at h ⊢ <;> simp_all

lemma detectStep_below_continue (s : DState) (t f d0 : ℚ) (h : f < 100)
    (hpd : s.person_detected = true) (hds : s.detection_start = some d0) :
    ((detectStep s t f).1).person_detected = true ∧
    ((detectStep s t f).1).detection_start = some d0 ∧
    (((detectStep s t f).1).need_rearm = true ↔
      (s.need_rearm = true ∨ t - d0 > 1/2)) := by
  unfold detectStep
  split_ifs with h1 h2 h3 h4 <;> simp_all [elapsedOver]

/-! ### Run invariants -/

/-- Whenever the detector is in the detected state, `detection_start` holds
the time of the first below-threshold tick of the current episode: some
`j < n` whose tick and all later ones read below 100, preceded by an
at-or-above-threshold tick (or the start of the run). -/
lemma episode_inv (t d : ℕ → ℚ) :
    ∀ n, (stateAt t d n).person_detected = true →
      ∃ j, j < n ∧ (stateAt t d n).detection_start = some (t j) ∧
        (∀ k, j ≤ k → k < n → d k < 100) ∧ (j = 0 ∨ ¬ d (j - 1) < 100) := by
  intro n
  induction n with
  | zero => intro h; simp [stateAt, initState] at h
  | succ n ih =>
    intro h
    by_cases hd : d n < 100
    · by_cases hpd : (stateAt t d n).person_detected = true
      · obtain ⟨j, hj, hds, hbelow, hstart⟩ := ih hpd
        obtain ⟨_, hds', _⟩ :=
          detectStep_below_continue (stateAt t d n) (t n) (d n) (t j) hd hpd hds
        refine ⟨j, Nat.lt_succ_of_lt hj, ?_, ?_, hstart⟩
        · simpa only [stateAt] using hds'
        · intro k hk1 hk2
          rcases Nat.lt_succ_iff_lt_or_eq.mp hk2 with h' | h'
          · exact hbelow k hk1 h'
          · subst h'; exact hd
      · have hpd' : (stateAt t d n).person_detected = false := by
          simpa using hpd
        have hfresh := detectStep_start_fresh (stateAt t d n) (t n) (d n) hd hpd'
        refine ⟨n, Nat.lt_succ_self n, ?_, ?_, ?_⟩
        · simp only [stateAt, hfresh]
        · intro k hk1 hk2
          have hkn : k = n := Nat.le_antisymm (Nat.lt_succ_iff.mp hk2) hk1
          subst hkn; exact hd
        · rcases Nat.eq_zero_or_pos n with h0 | hpos
          · exact Or.inl h0
          · refine Or.inr ?_
            intro hcon
            obtain ⟨m, rfl⟩ := Nat.exists_eq_succ_of_ne_zero (Nat.pos_iff_ne_zero.mp hpos)
            have hdm : d m < 100 := by simpa using hcon
            have hts := detectStep_detected_of_below (stateAt t d m) (t m) (d m) hdm
            simp only [stateAt] at hpd'
            rw [hpd'] at hts
            exact Bool.noConfusion hts
    · have habove := detectStep_above (stateAt t d n) (t n) (d n) hd
      simp only [stateAt, habove] at h
      exact Bool.noConfusion h

/-! ## C2: when Stop is emitted -/

/-- Constant tick times (one unit apart). -/
def tConst : ℕ → ℚ := fun k => (k : ℚ)

/-- Filtered distances all far away (200 cm). -/
def dFar : ℕ → ℚ := fun _ => 200

/-- C2 counterexample.  On tick 0 the detector is in its initial idle state
(`person_detected = false`, `need_rearm = false`, i.e. not Present), the
filtered distance is 200 ≥ 100, and the tick nevertheless emits Stop: the
`else` branch of the loop calls `stop_music()` on every at-or-above-threshold
tick, including ticks on which the state was already Idle. -/
theorem stop_when_idle_counterexample :
    eventAt tConst dFar 0 = Event.stop ∧
    (stateAt tConst dFar 0).person_detected = false ∧
    (stateAt tConst dFar 0).need_rearm = false := by
  refine ⟨?_, rfl, rfl⟩
  norm_num [eventAt, stateAt, detectStep, tConst, dFar, initState]

/-- C2 amended.  A Stop event is emitted on a tick if and only if the
filtered distance on that tick is at least 100.0, regardless of the
detector's previous state; and at most one playback event is emitted per
tick (a tick never emits both Play and Stop). -/
theorem stop_iff_threshold (t d : ℕ → ℚ) (n : ℕ) :
    (eventAt t d n = Event.stop ↔ ¬ d n < 100) ∧
    ¬ (eventAt t d n = Event.play ∧ eventAt t d n = Event.stop) := by
  constructor
  · rw [eventAt]; exact detectStep_stop_iff _ _ _
  · rintro ⟨h1, h2⟩
    rw [h1] at h2
    exact Event.noConfusion h2

/-! ## C3: Play requires a sustained below-threshold episode -/

/-- Filtered distances all near (50 cm). -/
def dNear : ℕ → ℚ := fun _ => 50

/-- C3.  A Play event on tick `n` implies that the filtered distance was
below 100.0 on every tick from the first below-threshold tick `j` of the
episode through `n`, that strictly more than 0.5 s of wall-clock time
elapsed between tick `j` and tick `n`, and that `j` really starts the
episode (it is the first tick, or the tick before it read at or above
threshold). -/
theorem play_requires_sustained (t d : ℕ → ℚ) (n : ℕ)
    (h : eventAt t d n = Event.play) :
    ∃ j, j ≤ n ∧ (∀ k, j ≤ k → k ≤ n → d k < 100) ∧
      t n - t j > 1/2 ∧ (j = 0 ∨ ¬ d (j - 1) < 100) := by
  rw [eventAt, detectStep_play_iff] at h
  obtain ⟨hd, hpd, he, _⟩ := h
  obtain ⟨j, hj, hds, hbelow, hstart⟩ := episode_inv t d n hpd
  refine ⟨j, le_of_lt hj, ?_, ?_, hstart⟩
  · intro k hk1 hk2
    rcases lt_or_eq_of_le hk2 with h' | h'
    · exact hbelow k hk1 h'
    · subst h'; exact hd
  · rw [hds] at he
    simpa [elapsedOver] using he

/-- C3 witness: with ticks 1 s apart and a constant filtered distance of
50 cm, a Play fires on tick 1 (1 s > 0.5 s elapsed since tick 0), and the
sustained below-threshold episode promised by `play_requires_sustained`
exists. -/
theorem play_requires_sustained_witness :
    ∃ j, j ≤ 1 ∧ (∀ k, j ≤ k → k ≤ 1 → dNear k < 100) ∧
      tConst 1 - tConst j > 1/2 ∧ (j = 0 ∨ ¬ dNear (j - 1) < 100) :=
  play_requires_sustained tConst dNear 1 (by
    norm_num [eventAt, stateAt, detectStep, elapsedOver, tConst, dNear, initState])

/-! ## C4: at most one Play per below-threshold episode -/

lemma play_sets_rearm_state (t d : ℕ → ℚ) (m : ℕ)
    (h : eventAt t d m = Event.play) :
    (stateAt t d (m + 1)).need_rearm = true := by
  simp only [stateAt]
  exact detectStep_play_sets_rearm _ _ _ h

lemma rearm_persist (t d : ℕ → ℚ) (m : ℕ)
    (hm : (stateAt t d m).need_rearm = true) :
    ∀ n, m ≤ n → (∀ k, m ≤ k → k < n → d k < 100) →
      (stateAt t d n).need_rearm = true := by
  intro n
  induction n with
  | zero =>
    intro hn _
    exact Nat.le_zero.mp hn ▸ hm
  | succ n ih =>
    intro hn hbelow
    rcases Nat.lt_or_ge m (n + 1) with h' | h'
    · have hr := ih (by omega) fun k hk1 hk2 => hbelow k hk1 (by omega)
      simp only [stateAt]
      exact detectStep_rearm_persists _ _ _ (hbelow n (by omega) (by omega)) hr
    · have hmn : m = n + 1 := by omega
      exact hmn ▸ hm

/-- C4.  At most one Play fires per continuous below-threshold episode: two
Play ticks `m < n` force some tick in between (in `(m, n]`) whose filtered
distance reached at least 100, i.e. they cannot belong to one continuous
below-threshold run.  And Play is never emitted on a tick whose incoming
`need_rearm` flag is set. -/
theorem play_once_per_episode (t d : ℕ → ℚ) :
    (∀ m n, m < n → eventAt t d m = Event.play → eventAt t d n = Event.play →
      ∃ k, m < k ∧ k ≤ n ∧ ¬ d k < 100) ∧
    (∀ n, eventAt t d n = Event.play → (stateAt t d n).need_rearm = false) := by
  have hrearm : ∀ n, eventAt t d n = Event.play →
      (stateAt t d n).need_rearm = false := by
    intro n hn
    rw [eventAt, detectStep_play_iff] at hn
    exact hn.2.2.2
  refine ⟨?_, hrearm⟩
  intro m n hmn hm hn
  by_contra hc
  push_neg at hc
  have h1 : (stateAt t d (m + 1)).need_rearm = true := play_sets_rearm_state t d m hm
  have h2 : (stateAt t d n).need_rearm = true := by
    refine rearm_persist t d (m + 1) h1 n hmn ?_
    intro k hk1 hk2
    exact hc k (Nat.lt_of_succ_le hk1) (le_of_lt hk2)
  rw [hrearm n hn] at h2
  exact Bool.noConfusion h2

/-- Filtered distances below 100 except one far tick at `k = 3`. -/
def dGap : ℕ → ℚ := fun k => if k = 3 then 150 else 50

/-- C4 witness: with ticks 1 s apart and distances near except at tick 3,
Play fires on ticks 1 and 5; `play_once_per_episode` then yields the
separating at-or-above-threshold tick, and the incoming rearm flag on the
first Play tick is clear. -/
theorem play_once_per_episode_witness :
    (∃ k, 1 < k ∧ k ≤ 5 ∧ ¬ dGap k < 100) ∧
    (stateAt tConst dGap 1).need_rearm = false :=
  ⟨(play_once_per_episode tConst dGap).1 1 5 (by norm_num)
      (by norm_num [eventAt, stateAt, detectStep, elapsedOver, tConst, dGap, initState])
      (by norm_num [eventAt, stateAt, detectStep, elapsedOver, tConst, dGap, initState]),
    (play_once_per_episode tConst dGap).2 1
      (by norm_num [eventAt, stateAt, detectStep, elapsedOver, tConst, dGap, initState])⟩

/-! ## C7: a rise to at-or-above threshold rearms; one more Play -/

/-- From a just-cleared state (not detected, rearm clear at tick `a`), a run
of below-threshold ticks reaching `i > a` keeps the detector detected with
`detection_start = t a`, and the rearm flag is set exactly when some strictly
earlier tick of the run (after `a`) was more than 0.5 s past `t a`. -/
lemma run_inv (t d : ℕ → ℚ) (a : ℕ)
    (hpd : (stateAt t d a).person_detected = false)
    (hr : (stateAt t d a).need_rearm = false) :
    ∀ i, a + 1 ≤ i → (∀ k, a ≤ k → k < i → d k < 100) →
      (stateAt t d i).person_detected = true ∧
      (stateAt t d i).detection_start = some (t a) ∧
      ((stateAt t d i).need_rearm = true ↔
        ∃ k, a < k ∧ k < i ∧ t k - t a > 1/2) := by
  intro i
  induction i with
  | zero => intro h; exact absurd h (by omega)
  | succ i ih =>
    intro hi hbelow
    rcases Nat.lt_or_ge a i with hai | hia
    · -- i ≥ a + 1: one more below-threshold step on top of the invariant
      have hbelow' : ∀ k, a ≤ k → k < i → d k < 100 := fun k hk1 hk2 =>
        hbelow k hk1 (Nat.lt_succ_of_lt hk2)
      obtain ⟨hpd', hds', hre'⟩ := ih hai hbelow'
      have hdi : d i < 100 := hbelow i (le_of_lt hai) (Nat.lt_succ_self i)
      obtain ⟨hp2, hd2, hr2⟩ :=
        detectStep_below_continue (stateAt t d i) (t i) (d i) (t a) hdi hpd' hds'
      refine ⟨by simpa only [stateAt] using hp2, by simpa only [stateAt] using hd2, ?_⟩
      rw [show stateAt t d (i + 1) = (detectStep (stateAt t d i) (t i) (d i)).1 from rfl]
      rw [hr2, hre']
      constructor
      · rintro (⟨k, hk1, hk2, hk3⟩ | hti)
        · exact ⟨k, hk1, Nat.lt_succ_of_lt hk2, hk3⟩
        · exact ⟨i, hai, Nat.lt_succ_self i, hti⟩
      · rintro ⟨k, hk1, hk2, hk3⟩
        rcases Nat.lt_succ_iff_lt_or_eq.mp hk2 with h' | h'
        · exact Or.inl ⟨k, hk1, h', hk3⟩
        · exact Or.inr (h' ▸ hk3)
    · -- i = a: the first below-threshold tick of the run
      have hia' : i = a := by omega
      subst hia'
      have hdi : d i < 100 := hbelow i (le_refl i) (Nat.lt_succ_self i)
      have hfresh := detectStep_start_fresh (stateAt t d i) (t i) (d i) hdi hpd
      refine ⟨?_, ?_, ?_⟩
      · simp only [stateAt, hfresh]
      · simp only [stateAt, hfresh]
      · simp only [stateAt, hfresh, hr]
        constructor
        · intro h; exact Bool.noConfusion h
        · rintro ⟨k, hk1, hk2, _⟩; omega

/-- C7.  If the rearm flag is set (a Play has fired) and tick `n` reads at
or above 100 cm, the tick clears both the rearm flag and the detected flag;
and a following continuous run of below-threshold ticks through tick `m`
that contains a tick more than 0.5 s after the run's first tick `n + 1`
fires exactly one Play. -/
theorem rearm_reset_allows_replay (t d : ℕ → ℚ) (n m : ℕ)
    (hrearm : (stateAt t d n).need_rearm = true)
    (habove : ¬ d n < 100)
    (hnm : n < m)
    (hbelow : ∀ k, n < k → k ≤ m → d k < 100)
    (hex : ∃ k, n < k ∧ k ≤ m ∧ t k - t (n + 1) > 1/2) :
    ((stateAt t d (n + 1)).need_rearm = false ∧
     (stateAt t d (n + 1)).person_detected = false) ∧
    ∃ i, (n < i ∧ i ≤ m ∧ eventAt t d i = Event.play) ∧
      ∀ j, n < j → j ≤ m → eventAt t d j = Event.play → j = i := by
  have hstop := detectStep_above (stateAt t d n) (t n) (d n) habove
  have hstate : stateAt t d (n + 1) =
      ⟨false, (stateAt t d n).detection_start, false⟩ := by
    simp only [stateAt, hstop]
  have hpd1 : (stateAt t d (n + 1)).person_detected = false := by rw [hstate]
  have hre1 : (stateAt t d (n + 1)).need_rearm = false := by rw [hstate]
  refine ⟨⟨hre1, hpd1⟩, ?_⟩
  have hPex : ∃ k, n < k ∧ t k - t (n + 1) > 1/2 := by
    obtain ⟨k, hk1, _, hk3⟩ := hex
    exact ⟨k, hk1, hk3⟩
  classical
  set k0 := Nat.find hPex with hk0def
  have hk0 : n < k0 ∧ t k0 - t (n + 1) > 1/2 := Nat.find_spec hPex
  have hk0m : k0 ≤ m := by
    obtain ⟨k, hk1, hk2, hk3⟩ := hex
    exact le_trans (Nat.find_min' hPex ⟨hk1, hk3⟩) hk2
  have hk0a : n + 1 + 1 ≤ k0 := by
    rcases Nat.lt_or_ge (n + 1) k0 with h | h
    · omega
    · exfalso
      have hk0n1 : k0 = n + 1 := by omega
      have h2 := hk0.2
      rw [hk0n1, sub_self] at h2
      norm_num at h2
  have hrun := run_inv t d (n + 1) hpd1 hre1
  have hbelow0 : ∀ k, n + 1 ≤ k → k < k0 → d k < 100 := fun k h1 h2 =>
    hbelow k (by omega) (by omega)
  obtain ⟨hp0, hd0, hr0⟩ := hrun k0 hk0a hbelow0
  have hre0 : (stateAt t d k0).need_rearm = false := by
    rcases hb : (stateAt t d k0).need_rearm with _ | _
    · rfl
    · exfalso
      obtain ⟨k, hk1, hk2, hk3⟩ := hr0.mp hb
      exact Nat.find_min hPex hk2 ⟨by omega, hk3⟩
  have hplay0 : eventAt t d k0 = Event.play := by
    rw [eventAt, detectStep_play_iff]
    refine ⟨hbelow k0 (by omega) hk0m, hp0, ?_, hre0⟩
    rw [hd0]
    simp only [elapsedOver, decide_eq_true_eq]
    exact hk0.2
  refine ⟨k0, ⟨by omega, hk0m, hplay0⟩, ?_⟩
  intro j hj1 hj2 hjplay
  rw [eventAt, detectStep_play_iff] at hjplay
  obtain ⟨hdj, hpj, hej, hrj⟩ := hjplay
  have hja : n + 1 + 1 ≤ j := by
    rcases Nat.lt_or_ge (n + 1) j with h | h
    · omega
    · exfalso
      have : j = n + 1 := by omega
      rw [this, hpd1] at hpj
      exact Bool.noConfusion hpj
  have hbelowj : ∀ k, n + 1 ≤ k → k < j → d k < 100 := fun k h1 h2 =>
    hbelow k (by omega) (by omega)
  obtain ⟨_, hdsj, hrej⟩ := hrun j hja hbelowj
  rw [hdsj] at hej
  simp only [elapsedOver, decide_eq_true_eq] at hej
  have hk0j : k0 ≤ j := Nat.find_min' hPex ⟨by omega, hej⟩
  rcases Nat.lt_or_ge k0 j with h | h
  · exfalso
    have : (stateAt t d j).need_rearm = true :=
      hrej.mpr ⟨k0, by omega, h, hk0.2⟩
    rw [hrj] at this
    exact Bool.noConfusion this
  · omega

/-- C7 witness: with distances near except at tick 3, Play fires at tick 1,
the far tick 3 clears both flags, and the run over ticks 4-5 fires exactly
one more Play. -/
theorem rearm_reset_allows_replay_witness :
    ((stateAt tConst dGap 4).need_rearm = false ∧
     (stateAt tConst dGap 4).person_detected = false) ∧
    ∃ i, (3 < i ∧ i ≤ 5 ∧ eventAt tConst dGap i = Event.play) ∧
      ∀ j, 3 < j → j ≤ 5 → eventAt tConst dGap j = Event.play → j = i :=
  rearm_reset_allows_replay tConst dGap 3 5
    (by norm_num [stateAt, detectStep, elapsedOver, tConst, dGap, initState])
    (by norm_num [dGap])
    (by norm_num)
    (by
      intro k h1 h2
      have hk : k = 4 ∨ k = 5 := by omega
      rcases hk with hk | hk <;> norm_num [hk, dGap])
    ⟨5, by norm_num, by norm_num, by norm_num [tConst]⟩

/-! ## C6: short windows yield the arithmetic mean -/

/-- C6.  On any non-empty window of fewer than 15 samples the filter takes
the short-window branch and returns the singleton whose sole element is the
arithmetic mean of the held samples, whatever `filtfilt` would do.  (The
non-emptiness hypothesis guards the embedding: `np.mean` of an empty array
is NaN, which has no rational counterpart; the program's window is never
empty.) -/
theorem short_window_mean (ff : List ℚ → FiltfiltResult) (data : List ℚ)
    (hne : data ≠ []) (hlen : data.length < 15) :
    low_pass_filter ff data = Except.ok [mean data] := by
  simp [low_pass_filter, hlen]

/-- C6 witness: the two-sample window [3, 5] yields the singleton mean. -/
theorem short_window_mean_witness :
    low_pass_filter (fun _ => FiltfiltResult.otherError) [3, 5] =
      Except.ok [mean [3, 5]] :=
  short_window_mean _ _ (by simp) (by simp)

/-! ## C5: the numerical-failure fallback is silent -/

/-- C5 counterexample.  On a full 15-sample window where `filtfilt` raises
`ValueError` (the numerical failure), the value used is indeed the window
mean, but the logged-warning flag is `false`: the fallback happens inside
`low_pass_filter`, the caller's `except Exception` handler never runs, so
nothing is logged — contradicting the claim that the caller logs the
event. -/
theorem filter_fallback_silent_counterexample :
    computeFiltered (fun _ => FiltfiltResult.valueError)
      (List.replicate 15 200) 50 = (mean (List.replicate 15 200), false) := by
  rfl

/-- C5 amended.  On a window of at least 15 samples: if `filtfilt` fails
with `ValueError`, the value used is the window mean and no warning is
logged (the fallback is silent); the caller logs a warning only when an
exception propagates out of `low_pass_filter`, and then it uses the raw
reading, not the mean. -/
theorem filter_fallback_behavior (h : List ℚ) (r : ℚ)
    (hlen : 15 ≤ h.length) :
    computeFiltered (fun _ => FiltfiltResult.valueError) h r = (mean h, false) ∧
    computeFiltered (fun _ => FiltfiltResult.otherError) h r = (r, true) := by
  have hnlt : ¬ h.length < 15 := by omega
  constructor <;>
    simp [computeFiltered, low_pass_filter, filtfiltPath, hnlt]

/-- C5 witness: a 15-sample window at 200 cm with raw reading 50. -/
theorem filter_fallback_behavior_witness :
    computeFiltered (fun _ => FiltfiltResult.valueError)
      (List.replicate 15 200) 50 = (mean (List.replicate 15 200), false) ∧
    computeFiltered (fun _ => FiltfiltResult.otherError)
      (List.replicate 15 200) 50 = (50, true) :=
  filter_fallback_behavior (List.replicate 15 200) 50 (by simp)

/-! ## C9: the history window always holds exactly 30 samples -/

/-- C9.  The history deque is pre-seeded with thirty 200.0 entries, and
appending under `maxlen = 30` keeps its length at exactly 30 forever;
consequently the `len < 15` mean branch of `low_pass_filter` is never taken
on a main-loop window (the call always proceeds to the `filtfilt` path),
and the initial window content is 30 copies of the no-person value 200.0. -/
theorem history_always_full (raws : ℕ → ℚ) (n : ℕ) :
    (historyAt raws n).length = 30 ∧
    historyAt raws 0 = List.replicate 30 200 ∧
    ∀ ff, low_pass_filter ff (historyAt raws n) =
      filtfiltPath ff (historyAt raws n) := by
  have hlen : ∀ m, (historyAt raws m).length = 30 := by
    intro m
    induction m with
    | zero => simp [historyAt]
    | succ m ih =>
      simp [historyAt, dequeAppend, ih]
  refine ⟨hlen n, rfl, ?_⟩
  intro ff
  unfold low_pass_filter
  rw [hlen n]
  norm_num

/-! ## C10: the filter never returns an empty sequence -/

/-- C10.  Whenever `low_pass_filter` returns (rather than propagating an
exception), on a non-empty window it returns a non-empty list: the
singleton mean on the short-window and `ValueError`-fallback paths, and a
full-window-length list on the successful `filtfilt` path (granted
`filtfilt`'s length-preservation).  Hence the main loop's `[-1]` selection
is defined on every returned value. -/
theorem filter_output_nonempty (ff : List ℚ → FiltfiltResult) (data : List ℚ)
    (hff : ∀ l out, ff l = FiltfiltResult.ok out → out.length = l.length)
    (hne : data ≠ []) :
    ∀ out, low_pass_filter ff data = Except.ok out →
      out ≠ [] ∧ (out.length = 1 ∨ out.length = data.length) ∧
      out.getLast?.isSome := by
  intro out hout
  unfold low_pass_filter at hout
  by_cases hlen : data.length < 15
  · rw [if_pos hlen] at hout
    have hout' : [mean data] = out := Except.ok.inj hout
    subst hout'
    exact ⟨by simp, Or.inl rfl, by simp⟩
  · rw [if_neg hlen] at hout
    unfold filtfiltPath at hout
    cases hcase : ff data with
    | ok o =>
      rw [hcase] at hout
      have hout' : o = out := Except.ok.inj hout
      subst hout'
      have hlo : o.length = data.length := hff data o hcase
      have hpos : 0 < data.length := List.length_pos.mpr hne
      have hone : o ≠ [] := by
        intro hnil
        rw [hnil] at hlo
        simp at hlo
        omega
      exact ⟨hone, Or.inr hlo, List.getLast?_isSome.mpr hone⟩
    | valueError =>
      rw [hcase] at hout
      have hout' : [mean data] = out := Except.ok.inj hout
      subst hout'
      exact ⟨by simp, Or.inl rfl, by simp⟩
    | otherError =>
      rw [hcase] at hout
      exact Except.noConfusion hout

/-- C10 witness: the singleton window [5] with an identity (hence
length-preserving) `filtfilt` behaviour. -/
theorem filter_output_nonempty_witness :
    [mean [(5:ℚ)]] ≠ [] ∧
    ([mean [(5:ℚ)]].length = 1 ∨ [mean [(5:ℚ)]].length = [(5:ℚ)].length) ∧
    [mean [(5:ℚ)]].getLast?.isSome :=
  filter_output_nonempty (fun l => FiltfiltResult.ok l) [5]
    (by intro l out h; cases h; rfl) (by simp) [mean [5]] rfl

/-! ## C8: loop termination and resource release (src/main.py 172-217)

The steady-state loop has exactly one inner `try`, wrapping the filter call
(lines 186-190), which catches `Exception`.  In Python `KeyboardInterrupt`
derives from `BaseException`, not `Exception`, so the inner handler catches
an ordinary exception from the filter computation but lets a
`KeyboardInterrupt` delivered during it propagate.  The sensor read
(`GPIO.input` inside `get_distance`), the logging call, and the playback
calls (`play_random_song` reads the music directory with `os.listdir` and
loads files with `pygame.mixer.music.load`, either of which can raise; and
`stop_music`) run outside any inner handler.  The outer `try` of line 173
catches only `KeyboardInterrupt`, and `GPIO.cleanup()` and
`pygame.mixer.quit()` run only inside that handler (lines 214-217) — there
is no `finally`.  Exceptions are abstracted by whether they match
`except KeyboardInterrupt` (equivalently, whether `except Exception`
misses them). -/

inductive Exc where
  | keyboardInterrupt
  | other
deriving DecidableEq

/-- Which exception, if any, escapes one iteration of the loop body, given
the exception raised (if any) at the sensor read, inside the filter
computation, and at the playback call.  The sensor's propagates; at the
filter slot the inner `except Exception` catches an `Exc.other` (execution
continues into the rest of the tick) but not a `KeyboardInterrupt`, which
escapes; the playback call's propagates. -/
def tickOutcome (sensorExc filterExc playbackExc : Option Exc) : Option Exc :=
  match sensorExc with
  | some e => some e
  | none =>
    match filterExc with
    | some Exc.keyboardInterrupt => some Exc.keyboardInterrupt
    | _ =>
      match playbackExc with
      | some e => some e
      | none => none

/-- Whether the resource release (`GPIO.cleanup()`, `pygame.mixer.quit()`)
runs when the loop is exited by the given exception: only the
`KeyboardInterrupt` handler performs it. -/
def cleanupOnExit : Exc → Bool
  | .keyboardInterrupt => true
  | .other => false

/-- C8 counterexample.  An exception raised by the playback call (for
example `os.listdir` failing on a missing music directory) escapes the loop
body — so the loop can terminate on a playback-level condition — and on
that exit path the cleanup does not run, since only the
`KeyboardInterrupt` handler releases the GPIO and playback resources. -/
theorem cleanup_missing_counterexample :
    tickOutcome none none (some Exc.other) = some Exc.other ∧
    cleanupOnExit Exc.other = false :=
  ⟨rfl, rfl⟩

/-- C8 amended.  An ordinary filter-level failure never terminates the
loop: the inner handler swallows it and the tick proceeds exactly as if
the filter had not raised.  A `KeyboardInterrupt` delivered during the
filter call is not caught by `except Exception` and escapes the tick.
Resources are released exactly when the exception ending the loop is the
external `KeyboardInterrupt` cancellation; an exception propagating from
the sensor read or the playback calls ends the program without releasing
them. -/
theorem exit_cleanup_behavior (p : Option Exc) (e : Exc) :
    tickOutcome none (some Exc.other) p = tickOutcome none none p ∧
    tickOutcome none (some Exc.other) none = none ∧
    tickOutcome none (some Exc.keyboardInterrupt) p = some Exc.keyboardInterrupt ∧
    (cleanupOnExit e = true ↔ e = Exc.keyboardInterrupt) := by
  refine ⟨by cases p <;> rfl, rfl, rfl, ?_⟩
  cases e <;> simp [cleanupOnExit]

end RaspiPlay
